import Mathlib

/-!
Verification of the rule-driven configuration container family of
mailpile/config.py: the `RuledContainer` rule engine (`RC`), the
`ConfigList` and `ConfigDict` containers, the `CommentedEscapedConfigParser`
serialization codec (`as_config`) and the tree loader
(`ConfigManager.parse_config`).

The embedding is a shallow one: Python scalar values become `PyVal`,
container trees become `ConfVal`, rules become `Rule`/`Checker`, and each
Python method becomes a Lean function mirroring the source line by line.
Python strings are modelled as lists of unicode code points (`List Nat`);
byte strings as lists of byte values.  Fallible operations return
`Except PyErr`, where `PyErr` distinguishes the exception classes that the
source raises or catches.
-/

namespace Mailpile

/-! ## Strings, digits and helpers -/

/-- Unicode code points of a Lean string (model of a Python unicode value). -/
def strCp (s : String) : List Nat := s.toList.map Char.toNat

/-- Render a list of code points back into a Lean string (used for
diagnostic messages; invalid code points map to the zero character). -/
def cpStr (l : List Nat) : String := String.mk (l.map (fun n => Char.ofNat n))

/-- Decimal digits (as code points, most significant first) of a natural
number; fuel-driven so that it is structurally recursive. -/
def natReprAux : Nat → Nat → List Nat
  | 0, _ => []
  | fuel+1, n =>
    if n < 10 then [48 + n] else natReprAux fuel (n / 10) ++ [48 + n % 10]

/-- Decimal digits (code points) of a natural number. -/
def natReprCp (n : Nat) : List Nat := natReprAux (n + 1) n

/-- Code points of the Python decimal rendering of an integer
(`unicode(i)` / `'%s' % i`). -/
def intReprCp : Int → List Nat
  | .ofNat n => natReprCp n
  | .negSucc n => 45 :: natReprCp (n + 1)

/-- Whitespace predicate matching Python `str.strip` / `str.isspace`. -/
def isPySpace (b : Nat) : Bool :=
  b == 9 || b == 10 || b == 11 || b == 12 || b == 13 || b == 32

/-- Model of Python `str.strip()`: remove leading and trailing whitespace. -/
def stripCp (l : List Nat) : List Nat :=
  ((l.dropWhile isPySpace).reverse.dropWhile isPySpace).reverse

/-- Value of a decimal digit code point. -/
def digit10 (c : Nat) : Option Nat :=
  if 48 ≤ c ∧ c ≤ 57 then some (c - 48) else none

/-- Accumulating evaluation of a decimal digit string. -/
def digitsValCore : Nat → List Nat → Option Nat
  | acc, [] => some acc
  | acc, c :: r =>
    match digit10 c with
    | some d => digitsValCore (acc * 10 + d) r
    | none => none

/-- Value of a non-empty decimal digit string. -/
def digitsVal : List Nat → Option Nat
  | [] => none
  | l => digitsValCore 0 l

/-- Model of Python `int(s)` on a string: strip whitespace, optional sign,
then decimal digits; `none` models the `ValueError` raised otherwise. -/
def pyIntOfStr (s : List Nat) : Option Int :=
  match stripCp s with
  | [] => none
  | c :: r =>
    if c = 45 then (digitsVal r).map (fun n => -(n : Int))
    else if c = 43 then (digitsVal r).map (fun n => (n : Int))
    else (digitsVal (c :: r)).map (fun n => (n : Int))

/-- Digit character of a base-36 digit, lowercase. -/
def b36Digit (n : Nat) : Nat := if n < 10 then 48 + n else 87 + n

/-- Base-36 digits of a natural number, fuel-driven. -/
def b36Aux : Nat → Nat → List Nat
  | 0, _ => []
  | fuel+1, n =>
    if n < 36 then [b36Digit n] else b36Aux fuel (n / 36) ++ [b36Digit (n % 36)]

/-- Modelled from the spec: `b36` lives in mailpile/util.py, which is not
part of the sources under verification.  Per the spec, list addressing uses
the positional index rendered as a lowercase base-36 string
(`0,1,...,9,a,b,...`). -/
def b36 (n : Nat) : String := cpStr (b36Aux (n + 1) n)

/-- Value of a base-36 digit character (case insensitive), as accepted by
Python `int(s, 36)`. -/
def digit36 (c : Char) : Option Nat :=
  let n := c.toNat
  if 48 ≤ n ∧ n ≤ 57 then some (n - 48)
  else if 65 ≤ n ∧ n ≤ 90 then some (n - 55)
  else if 97 ≤ n ∧ n ≤ 122 then some (n - 87)
  else none

/-- Accumulating evaluation of a base-36 digit string. -/
def b36ValCore : Nat → List Char → Option Nat
  | acc, [] => some acc
  | acc, c :: r =>
    match digit36 c with
    | some d => b36ValCore (acc * 36 + d) r
    | none => none

/-- Model of Python `int(s, 36)` as used by `ConfigList.__fixkey__`:
an optional sign followed by base-36 digits; `none` models `ValueError`. -/
def parse36 (s : String) : Option Int :=
  match s.toList with
  | [] => none
  | c :: r =>
    if c = Char.ofNat 45 then (b36ValCore 0 r).bind
      (fun n => if r = [] then none else some (-(n : Int)))
    else (b36ValCore 0 (c :: r)).map (fun n => (n : Int))

/-- Keys in canonical lowercase variable form (`CleanText.NONVARS`-clean and
already lowercase); such keys are fixed points of `optionxform`. -/
def validVarName (s : String) : Bool :=
  !s.toList.isEmpty && s.toList.all fun c =>
    (97 ≤ c.toNat && c.toNat ≤ 122) || (48 ≤ c.toNat && c.toNat ≤ 57)
      || c.toNat == 95

/-! ## The data model: scalar values, rules, containers -/

/-- Python scalar values stored in configuration containers.  Strings are
lists of unicode code points.  (Floats do not occur in any verified claim
and are omitted.) -/
inductive PyVal where
  | pnone
  | pbool (b : Bool)
  | pint (i : Int)
  | pstr (s : List Nat)
deriving DecidableEq, Repr

mutual

/-- The checker slot of a rule, after `add_rule` has resolved tags through
`RULE_CHECK_MAP`: `True` (store verbatim), `False` (immutable), a fixed
value set (list/set/tuple membership), the coercion callables `int` and
`unicode`, or a nested rule dictionary (compiled by `_MakeCheck` into a
`ConfigDict` subclass). -/
inductive Checker where
  | ctrue
  | cfalse
  | vset (vs : List PyVal)
  | cInt
  | cStr
  | sub (rs : List (String × Rule))
deriving Repr

/-- A rule `[comment, checker, default]` (`RULE_COMMENT`, `RULE_CHECKER`,
`RULE_DEFAULT`). -/
inductive Rule where
  | mk (comment : String) (checker : Checker) (default : PyVal)
deriving Repr

end

/-- Comment slot of a rule. -/
def Rule.comment : Rule → String
  | .mk c _ _ => c

/-- Checker slot of a rule. -/
def Rule.checker : Rule → Checker
  | .mk _ c _ => c

/-- Default slot of a rule. -/
def Rule.default : Rule → PyVal
  | .mk _ _ d => d

/-- A rule set: the `self.rules` association of a container. -/
def RuleSet := List (String × Rule)

/-- A configuration value: a scalar, a `ConfigDict` (name, optional
comment, rules, key-ordered data) or a `ConfigList` (name, optional
comment, rules, positional data). -/
inductive ConfVal where
  | scalar (v : PyVal)
  | dict (name : String) (comment : Option String)
      (rules : List (String × Rule)) (data : List (String × ConfVal))
  | list (name : String) (comment : Option String)
      (rules : List (String × Rule)) (data : List ConfVal)
deriving Repr

/-- The exception classes raised or caught by the source.  `invalidKey`
is `InvalidKeyError` (a `ValueError` subclass), `invalidValue` and
`immutable` are the plain `ValueError`s raised by `RC.__setitem__`,
`usageError` is the `UsageError` raised by `ConfigDict.__delitem__`;
`attributeError`, `indexError` and `typeError` are the builtin exceptions
that can escape uncaught. -/
inductive PyErr where
  | invalidKey (msg : String)
  | invalidValue (msg : String)
  | immutable (msg : String)
  | usageError (msg : String)
  | attributeError (name : String)
  | keyError (msg : String)
  | indexError (msg : String)
  | typeError (msg : String)
deriving DecidableEq, Repr

/-- Exceptions caught by `parse_config`'s `except (ValueError, KeyError)`:
`InvalidKeyError` and both `ValueError` forms are `ValueError`s, and the
raw `dict` miss is a `KeyError`. -/
def PyErr.isValueOrKeyError : PyErr → Bool
  | .invalidKey _ => true
  | .invalidValue _ => true
  | .immutable _ => true
  | .keyError _ => true
  | _ => false

/-- String rendering `'%s' % v` of a scalar. -/
def pyStrCp : PyVal → List Nat
  | .pstr s => s
  | .pnone => strCp ("None")
  | .pbool true => strCp ("True")
  | .pbool false => strCp ("False")
  | .pint i => intReprCp i

/-- Scalar rendering as a Lean string, for diagnostic messages. -/
def pyStrS (v : PyVal) : String := cpStr (pyStrCp v)

/-- Rendering `'%s' % v` of any stored value, for diagnostic messages.
Containers stringify through their serialization in the source; the
rendered text of a container never decides a verified claim, so it is
abbreviated here. -/
def renderVal : ConfVal → String
  | .scalar p => pyStrS p
  | .dict n _ _ _ => n
  | .list n _ _ _ => n

/-! ## The rule engine -/

/-- Functional update of an association list, the effect of
`dict.__setitem__`: replace the first binding of the key, else append. -/
def assocSet (data : List (String × ConfVal)) (k : String) (v : ConfVal) :
    List (String × ConfVal) :=
  match data with
  | [] => [(k, v)]
  | (k0, v0) :: r => if k0 = k then (k, v) :: r else (k0, v0) :: assocSet r k v

/-- `RC.get_rule` for a string key (the `ConfigDict` case, where
`__fixkey__` is the identity): the key's own rule, else the wildcard
rule, else `InvalidKeyError`. -/
def getRuleD (name : String) (rules : RuleSet) (key : String) :
    Except PyErr Rule :=
  match List.lookup key rules with
  | some r => .ok r
  | none =>
    match List.lookup ("_any") rules with
    | some r => .ok r
    | none => .error (.invalidKey ("Invalid key for " ++ name ++ ": " ++ key))

/-- `RC.get_rule` for an integer key (the `ConfigList` case after
`__fixkey__` has converted a base-36 string): an integer is never equal to
the string keys of `self.rules`, so only the wildcard can match. -/
def getRuleL (name : String) (rules : RuleSet) (key : Int) :
    Except PyErr Rule :=
  match List.lookup ("_any") rules with
  | some r => .ok r
  | none =>
    .error (.invalidKey ("Invalid key for " ++ name ++ ": "
      ++ cpStr (intReprCp key)))

/-- `RC.__passkey__` as invoked from a `ConfigDict` parent: the source
tests `hasattr(value, 'key')`, which for a container resolves through
`__getattr__` and holds exactly when the name `key` is covered by the
child's rules (for a `ConfigList` child, `__fixkey__('key')` parses as a
base-36 integer, which is never a rules key, so only the wildcard
matters); scalars have no such attribute.  When it holds, the child is
renamed to `<parent-name>/<key>`. -/
def dictPasskey (parentName : String) (key : String) : ConfVal → ConfVal
  | .scalar v => .scalar v
  | .dict n c rs d =>
    if (List.lookup ("key") rs).isSome ∨ (List.lookup ("_any") rs).isSome
    then .dict (parentName ++ "/" ++ key) c rs d else .dict n c rs d
  | .list n c rs d =>
    if (List.lookup ("_any") rs).isSome
    then .list (parentName ++ "/" ++ key) c rs d else .list n c rs d

/-- `ConfigList.__passkey__`: containers always carry `_key`, so every
container child is renamed to `<parent-name>/<base-36 key>`; scalars are
untouched. -/
def listPasskey (parentName : String) (key : Nat) : ConfVal → ConfVal
  | .scalar v => .scalar v
  | .dict _ c rs d => .dict (parentName ++ "/" ++ b36 key) c rs d
  | .list _ c rs d => .list (parentName ++ "/" ++ b36 key) c rs d

/-- Message of the `ValueError` raised for a rejected value:
`'Invalid value for %s/%s: %s' % (self._name, key, value)`. -/
def invalidValueMsg (name key : String) (value : ConfVal) : String :=
  "Invalid value for " ++ name ++ "/" ++ key ++ ": " ++ renderVal value

/-- The checker dispatch of `RC.__setitem__` (the body guarded by
`if not checker is True`), returning the value to store.  `fuel` bounds
the recursion depth through nested rule-set checkers, where the source
builds a fresh `ConfigDict` from the value (`value = checker(value)`);
only that branch consumes fuel, so results for the other checkers do not
depend on it.  A `TypeError` or `ValueError` coming out of a coercion is
re-raised as the `ValueError` carrying `invalidValueMsg`, matching the
source's `except (ValueError, TypeError)`. -/
def checkValueF (fuel : Nat) (name key : String) (c : Checker)
    (value : ConfVal) : Except PyErr ConfVal :=
  match c with
  | .ctrue => .ok value
  | .cfalse =>
    .error (.immutable ("Modifying " ++ name ++ "/" ++ key
      ++ " is not allowed"))
  | .vset vs =>
    match value with
    | .scalar p =>
      if p ∈ vs then .ok value
      else .error (.invalidValue (invalidValueMsg name key value))
    | _ => .error (.invalidValue (invalidValueMsg name key value))
  | .cInt =>
    match value with
    | .scalar (.pint i) => .ok (.scalar (.pint i))
    | .scalar (.pbool b) => .ok (.scalar (.pint (if b then 1 else 0)))
    | .scalar (.pstr s) =>
      match pyIntOfStr s with
      | some i => .ok (.scalar (.pint i))
      | none => .error (.invalidValue (invalidValueMsg name key value))
    | _ => .error (.invalidValue (invalidValueMsg name key value))
  | .cStr =>
    match value with
    | .scalar p => .ok (.scalar (.pstr (pyStrCp p)))
    | _ => .error (.typeError ("unicode() of a container is not modelled"))
  | .sub rs =>
    match fuel with
    | 0 => .error (.typeError ("modelling recursion bound exceeded"))
    | f+1 =>
      match value with
      | .dict _ _ _ pairs =>
        (pairs.foldlM
          (fun (d : List (String × ConfVal)) (kv : String × ConfVal) =>
            (match getRuleD ("config") rs kv.1 with
            | .error e => .error e
            | .ok r =>
              match checkValueF f ("config") kv.1 r.checker kv.2 with
              | .error e => .error e
              | .ok v2 =>
                Except.ok (assocSet d kv.1 (dictPasskey ("config") kv.1 v2)) :
              Except PyErr (List (String × ConfVal))))
          []).map (fun d => ConfVal.dict ("config") none rs d)
      | _ => .error (.invalidValue (invalidValueMsg name key value))

/-- `RC.__setitem__` on a `ConfigDict`: rule lookup, checker dispatch,
`__passkey__`, then the underlying `dict` store. -/
def dictSetItemF (fuel : Nat) (name : String) (rules : RuleSet)
    (data : List (String × ConfVal)) (key : String) (value : ConfVal) :
    Except PyErr (List (String × ConfVal)) :=
  match getRuleD name rules key with
  | .error e => .error e
  | .ok r =>
    match checkValueF fuel name key r.checker value with
    | .error e => .error e
    | .ok v2 => .ok (assocSet data key (dictPasskey name key v2))

/-- `RC.get` on a `ConfigDict`: the stored value when the key is present;
else, when the caller default is `None` and the key has a rule, the
rule's default; else the caller default. -/
def dictGet (rules : RuleSet) (data : List (String × ConfVal))
    (key : String) (dflt : ConfVal) : ConfVal :=
  match List.lookup key data with
  | some v => v
  | none =>
    match dflt, List.lookup key rules with
    | .scalar .pnone, some r => .scalar r.default
    | _, _ => dflt

/-- `RC.__getitem__` on a `ConfigDict`: names covered by the rules (or by
a wildcard) go through `get`; anything else falls back to the raw
`dict.__getitem__`, whose miss is a `KeyError`. -/
def dictGetItem (rules : RuleSet) (data : List (String × ConfVal))
    (key : String) : Except PyErr ConfVal :=
  if (List.lookup key rules).isSome ∨ (List.lookup ("_any") rules).isSome
  then .ok (dictGet rules data key (.scalar .pnone))
  else
    match List.lookup key data with
    | some v => .ok v
    | none => .error (.keyError key)

/-- Python list index normalization: negative indices count from the end;
out-of-range indices are an `IndexError`. -/
def pyIdx (len : Nat) (i : Int) : Option Nat :=
  let j := if i < 0 then i + len else i
  if 0 ≤ j ∧ j < len then some j.toNat else none

/-- `list.__setitem__` with an integer index. -/
def listSetIdx (data : List ConfVal) (i : Int) (v : ConfVal) :
    Except PyErr (List ConfVal) :=
  match pyIdx data.length i with
  | some j => .ok (data.set j v)
  | none => .error (.indexError ("list assignment index out of range"))

/-- `RC.__setitem__` on a `ConfigList` for an integer key (after
`__fixkey__`): wildcard rule lookup, checker dispatch,
`ConfigList.__passkey__`, then the underlying list store. -/
def listSetItemF (fuel : Nat) (name : String) (rules : RuleSet)
    (data : List ConfVal) (i : Int) (value : ConfVal) :
    Except PyErr (List ConfVal) :=
  match getRuleL name rules i with
  | .error e => .error e
  | .ok r =>
    match checkValueF fuel name (cpStr (intReprCp i)) r.checker value with
    | .error e => .error e
    | .ok v2 => listSetIdx data i (listPasskey name i.toNat v2)

/-- `ConfigList.append`: reserve the next slot with `None`, validate the
value into it, roll the slot back (`self[len(self)-1:] = []`) on failure;
on success return the base-36 address of the slot.  The first component is
the list contents after the call (rolled back on failure). -/
def listAppendF (fuel : Nat) (name : String) (rules : RuleSet)
    (data : List ConfVal) (value : ConfVal) :
    List ConfVal × Except PyErr String :=
  let data1 := data ++ [ConfVal.scalar .pnone]
  match listSetItemF fuel name rules data1 ((data1.length - 1 : Nat) : Int)
      value with
  | .ok d2 => (d2, .ok (b36 data.length))
  | .error e => (data1.take (data1.length - 1), .error e)

/-- `ConfigList.extend`: append each element in order; the first failure
propagates, keeping earlier successful appends. -/
def listExtendF (fuel : Nat) (name : String) (rules : RuleSet) :
    List ConfVal → List ConfVal → List ConfVal × Except PyErr Unit
  | data, [] => (data, .ok ())
  | data, v :: rest =>
    match listAppendF fuel name rules data v with
    | (d, .ok _) => listExtendF fuel name rules d rest
    | (d, .error e) => (d, .error e)

/-- The first loop of `ConfigList.update`: `self[i] = l[i]` for
`i in range(0, len(self))`, driven by a countdown of the remaining
positions.  A missing source element is the `IndexError` of `l[i]`. -/
def listSetLoop (fuel : Nat) (name : String) (rules : RuleSet) :
    Nat → Nat → List ConfVal → List ConfVal →
    List ConfVal × Except PyErr Unit
  | 0, _, data, _ => (data, .ok ())
  | k+1, i, data, src =>
    match src[i]? with
    | none => (data, .error (.indexError ("list index out of range")))
    | some v =>
      match listSetItemF fuel name rules data (i : Int) v with
      | .ok d => listSetLoop fuel name rules k (i + 1) d src
      | .error e => (data, .error e)

/-- `ConfigList.update` for one source sequence: replace positions
`0 ≤ i < len(self)` in place, then append the remaining source elements
(`for i in range(len(self), len(l)): self.append(l[i])`). -/
def listUpdateF (fuel : Nat) (name : String) (rules : RuleSet)
    (data src : List ConfVal) : List ConfVal × Except PyErr Unit :=
  match listSetLoop fuel name rules data.length 0 data src with
  | (d, .ok _) => listExtendF fuel name rules d (src.drop data.length)
  | (d, .error e) => (d, .error e)

/-- `ConfigDict.update` for a mapping source: every pair goes through
`__setitem__`; the first failure propagates, keeping earlier writes. -/
def dictUpdateF (fuel : Nat) (name : String) (rules : RuleSet) :
    List (String × ConfVal) → List (String × ConfVal) →
    List (String × ConfVal) × Except PyErr Unit
  | data, [] => (data, .ok ())
  | data, (k, v) :: rest =>
    match dictSetItemF fuel name rules data k v with
    | .ok d => dictUpdateF fuel name rules d rest
    | .error e => (data, .error e)

/-! ## Basic lemmas about the store -/

theorem assocSet_lookup (data : List (String × ConfVal)) (k k2 : String)
    (v : ConfVal) :
    List.lookup k2 (assocSet data k v)
      = if k2 = k then some v else List.lookup k2 data := by
  induction data with
  | nil =>
    by_cases h : k2 = k
    · simp [assocSet, List.lookup_cons, h]
    · have hb : (k2 == k) = false := beq_eq_false_iff_ne.mpr h
      simp [assocSet, List.lookup_cons, h, hb]
  | cons hd tl ih =>
    obtain ⟨k0, v0⟩ := hd
    by_cases h0 : k0 = k
    · subst h0
      by_cases h : k2 = k0
      · simp [assocSet, List.lookup_cons, h]
      · have hb : (k2 == k0) = false := beq_eq_false_iff_ne.mpr h
        simp [assocSet, List.lookup_cons, h, hb]
    · by_cases h : k2 = k0
      · subst h
        have hk : ¬ (k2 = k) := h0
        simp [assocSet, h0, List.lookup_cons, hk]
      · have hb : (k2 == k0) = false := beq_eq_false_iff_ne.mpr h
        simp [assocSet, h0, List.lookup_cons, h, hb, ih]

/-- Success of the checker dispatch does not depend on the container name
or key, which only flavour the error messages. -/
theorem checkValueF_ok_irrel (fuel : Nat) (n k n2 k2 : String)
    (c : Checker) (v v' : ConfVal)
    (h : checkValueF fuel n k c v = .ok v') :
    checkValueF fuel n2 k2 c v = .ok v' := by
  cases c with
  | ctrue => simpa [checkValueF] using h
  | cfalse => simp [checkValueF] at h
  | vset vs =>
    cases v with
    | scalar p =>
      by_cases hp : p ∈ vs
      · simpa [checkValueF, hp] using h
      · simp [checkValueF, hp] at h
    | dict _ _ _ _ => simp [checkValueF] at h
    | list _ _ _ _ => simp [checkValueF] at h
  | cInt =>
    cases v with
    | scalar p =>
      cases p with
      | pnone => simp [checkValueF] at h
      | pbool b => simpa [checkValueF] using h
      | pint i => simpa [checkValueF] using h
      | pstr s =>
        simp only [checkValueF] at h ⊢
        cases hps : pyIntOfStr s with
        | none => simp only [hps] at h; simp at h
        | some i => simp only [hps] at h ⊢; exact h
    | dict _ _ _ _ => simp [checkValueF] at h
    | list _ _ _ _ => simp [checkValueF] at h
  | cStr =>
    cases v with
    | scalar p => simpa [checkValueF] using h
    | dict _ _ _ _ => simp [checkValueF] at h
    | list _ _ _ _ => simp [checkValueF] at h
  | sub rs =>
    cases fuel with
    | zero => simp [checkValueF] at h
    | succ f =>
      cases v with
      | scalar p => simp [checkValueF] at h
      | dict nm cm rl pairs => simpa [checkValueF] using h
      | list _ _ _ _ => simp [checkValueF] at h

/-- Computation lemma for a successful `append`: the checked value lands in
the reserved slot and the returned address is the base-36 rendering of the
previous length. -/
theorem listAppendF_ok (fuel : Nat) (name : String) (rules : RuleSet)
    (data : List ConfVal) (v v' : ConfVal) (r : Rule)
    (hw : List.lookup ("_any") rules = some r)
    (hc : checkValueF fuel name (cpStr (intReprCp (data.length : Int)))
      r.checker v = .ok v') :
    listAppendF fuel name rules data v
      = (data ++ [listPasskey name data.length v'], .ok (b36 data.length)) := by
  have hlen : (data ++ [ConfVal.scalar PyVal.pnone]).length - 1 = data.length := by
    simp
  simp only [listAppendF, listSetItemF, getRuleL, hw, hlen, hc, listSetIdx, pyIdx]
  have h0 : ¬ ((data.length : Int) < 0) := by omega
  have h1 : (0 : Int) ≤ (data.length : Int) ∧
      (data.length : Int) < ((data ++ [ConfVal.scalar PyVal.pnone]).length : Int) := by
    simp
  simp only [h0, if_false, if_pos h1]
  rw [Int.toNat_ofNat]
  rw [List.set_append_right _ _ (Nat.le_refl _)]
  simp

/-- Computation lemma for a failed `append`: the reserved slot is rolled
back and the checker's error propagates. -/
theorem listAppendF_error (fuel : Nat) (name : String) (rules : RuleSet)
    (data : List ConfVal) (v : ConfVal) (r : Rule) (e : PyErr)
    (hw : List.lookup ("_any") rules = some r)
    (hc : checkValueF fuel name (cpStr (intReprCp (data.length : Int)))
      r.checker v = .error e) :
    listAppendF fuel name rules data v = (data, .error e) := by
  have hlen : (data ++ [ConfVal.scalar PyVal.pnone]).length - 1 = data.length := by
    simp
  simp only [listAppendF, listSetItemF, getRuleL, hw, hlen, hc]
  rw [List.take_left]

/-! ## Claim C9: the worked example of coercion and InvalidValue path -/

/-- C9: for a mapping container named `root` with rule set
`{"count": ["desc", int, 0]}`, `set("count", "42")` stores the integer 42
(the string coerced by the `int` checker), while `set("count", "x")` raises
`InvalidValue` whose message names the fully-qualified path `root/count`. -/
theorem C9_count_coercion_and_error :
    dictSetItemF 1 ("root")
        [(("count" : String), Rule.mk ("desc") .cInt (.pint 0))] []
        ("count") (.scalar (.pstr (strCp ("42"))))
      = .ok [(("count" : String), ConfVal.scalar (.pint 42))]
    ∧ dictSetItemF 1 ("root")
        [(("count" : String), Rule.mk ("desc") .cInt (.pint 0))] []
        ("count") (.scalar (.pstr (strCp ("x"))))
      = .error (.invalidValue ("Invalid value for root/count: x")) :=
  ⟨rfl, rfl⟩

/-! ## Claim C3: `get(key, default)` -/

/-- C3 counterexample: for rules `{"count": ["desc", int, 0]}` and an unset
key, `get("count", 5)` returns the caller default 5, not the rule's declared
default 0 — the rule default is consulted only when the caller default is
`None`, contradicting the claimed preference of rule default over `d`. -/
theorem C3_counterexample :
    dictGet [(("count" : String), Rule.mk ("desc") .cInt (.pint 0))] []
        ("count") (ConfVal.scalar (.pint 5))
      = ConfVal.scalar (.pint 5)
    ∧ ConfVal.scalar (PyVal.pint 5) ≠ ConfVal.scalar (PyVal.pint 0) :=
  ⟨rfl, by simp⟩

/-- C3 (amended): `get(key, d)` returns the stored value when the key is
set; when the key is unset it returns the rule's declared default only if
the caller default `d` is `None` and the key has a rule; in every other
case it returns `d`. -/
theorem C3_get_amended (rules : RuleSet) (data : List (String × ConfVal))
    (key : String) (dflt : ConfVal) :
    (∀ v, List.lookup key data = some v → dictGet rules data key dflt = v)
    ∧ (List.lookup key data = none → dflt = ConfVal.scalar .pnone →
        ∀ r, List.lookup key rules = some r →
          dictGet rules data key dflt = ConfVal.scalar r.default)
    ∧ (List.lookup key data = none →
        (dflt ≠ ConfVal.scalar .pnone ∨ List.lookup key rules = none) →
          dictGet rules data key dflt = dflt) := by
  refine ⟨fun v hv => ?_, fun hn hd r hr => ?_, fun hn hcase => ?_⟩
  · simp [dictGet, hv]
  · subst hd
    simp [dictGet, hn, hr]
  · rcases hcase with hne | hrn
    · cases dflt with
      | scalar p =>
        cases p with
        | pnone => exact absurd rfl hne
        | pbool b => simp [dictGet, hn]
        | pint i => simp [dictGet, hn]
        | pstr s => simp [dictGet, hn]
      | dict a b c d => simp [dictGet, hn]
      | list a b c d => simp [dictGet, hn]
    · cases dflt with
      | scalar p =>
        cases p with
        | pnone => simp [dictGet, hn, hrn]
        | pbool b => simp [dictGet, hn]
        | pint i => simp [dictGet, hn]
        | pstr s => simp [dictGet, hn]
      | dict a b c d => simp [dictGet, hn]
      | list a b c d => simp [dictGet, hn]

/-- Rule set of the worked `count` example, shared by witnesses. -/
def countRules : RuleSet := [(("count" : String), Rule.mk ("desc") .cInt (.pint 0))]

/-- Witness for C3 (amended) at concrete inputs: with the caller default
`None` the rule default 0 comes back; with caller default 5 the caller
default comes back. -/
theorem C3_get_amended_witness :
    dictGet countRules [] ("count") (ConfVal.scalar .pnone)
      = ConfVal.scalar (.pint 0)
    ∧ dictGet countRules [] ("count") (ConfVal.scalar (.pint 5))
      = ConfVal.scalar (.pint 5) :=
  ⟨(C3_get_amended countRules [] ("count") (ConfVal.scalar .pnone)).2.1
      rfl rfl (Rule.mk ("desc") .cInt (.pint 0)) rfl,
   (C3_get_amended countRules [] ("count") (ConfVal.scalar (.pint 5))).2.2
      rfl (Or.inl (by simp))⟩

/-! ## Claim C6: wildcard containers and unknown keys -/

/-- C6 counterexample: in a container whose rule set holds both the
wildcard `_any` (checker `int`) and an explicitly listed key `x` with
checker `False`, the value 1 passes the wildcard checker, yet assigning
`x` fails — so it is not the case that assigning any key succeeds whenever
the value passes the wildcard checker. -/
theorem C6_counterexample :
    checkValueF 1 ("config") ("x") .cInt (.scalar (.pint 1))
      = .ok (.scalar (.pint 1))
    ∧ dictSetItemF 1 ("config")
        [(("_any" : String), Rule.mk ("") .cInt .pnone),
         (("x" : String), Rule.mk ("") .cfalse .pnone)] []
        ("x") (.scalar (.pint 1))
      = .error (.immutable ("Modifying config/x is not allowed")) :=
  ⟨rfl, rfl⟩

/-- C6 (amended): with a wildcard rule, assigning any key that is not
explicitly listed succeeds exactly when the value passes the wildcard
checker; without a wildcard rule, assigning an unlisted key raises
`InvalidKey`. -/
theorem C6_wildcard_amended (fuel : Nat) (name : String) (rules : RuleSet)
    (data : List (String × ConfVal)) (key : String) (v v2 : ConfVal) :
    (List.lookup key rules = none →
      ∀ r, List.lookup ("_any") rules = some r →
        checkValueF fuel name key r.checker v = .ok v2 →
        dictSetItemF fuel name rules data key v
          = .ok (assocSet data key (dictPasskey name key v2)))
    ∧ (List.lookup key rules = none → List.lookup ("_any") rules = none →
      dictSetItemF fuel name rules data key v
        = .error (.invalidKey ("Invalid key for " ++ name ++ ": " ++ key))) := by
  constructor
  · intro hk r hw hc
    simp [dictSetItemF, getRuleD, hk, hw, hc]
  · intro hk hw
    simp [dictSetItemF, getRuleD, hk, hw]

/-- Wildcard `int` rule set shared by witnesses. -/
def anyIntRules : RuleSet := [(("_any" : String), Rule.mk ("") .cInt .pnone)]

/-- Witness for C6 (amended): a wildcard `int` container accepts the fresh
key `foo` with value 7; a container with no wildcard rejects it with
`InvalidKey`. -/
theorem C6_wildcard_amended_witness :
    dictSetItemF 1 ("config") anyIntRules [] ("foo") (.scalar (.pint 7))
      = .ok [(("foo" : String), ConfVal.scalar (.pint 7))]
    ∧ dictSetItemF 1 ("config") ([] : RuleSet) [] ("foo") (.scalar (.pint 7))
      = .error (.invalidKey ("Invalid key for config: foo")) :=
  ⟨(C6_wildcard_amended 1 ("config") anyIntRules []
      ("foo") (.scalar (.pint 7)) (.scalar (.pint 7))).1
      rfl (Rule.mk ("") .cInt .pnone) rfl rfl,
   (C6_wildcard_amended 1 ("config") ([] : RuleSet) []
      ("foo") (.scalar (.pint 7)) (.scalar (.pint 7))).2 rfl rfl⟩

/-! ## Claim C5: append validation, rollback and base-36 address -/

/-- C5: on a list container with a wildcard rule, `append(v)` with a value
the wildcard checker rejects raises that `InvalidValue` and leaves the list
unchanged (the reserved slot is rolled back), while `append(v)` with an
accepted value stores the coerced value in the new slot and returns the
base-36 rendering of the list's length before the append. -/
theorem C5_append (fuel : Nat) (name : String) (rules : RuleSet)
    (data : List ConfVal) (v : ConfVal) (r : Rule)
    (hw : List.lookup ("_any") rules = some r) :
    (∀ m, checkValueF fuel name (cpStr (intReprCp (data.length : Int)))
        r.checker v = .error (.invalidValue m) →
      listAppendF fuel name rules data v = (data, .error (.invalidValue m)))
    ∧ (∀ v2, checkValueF fuel name (cpStr (intReprCp (data.length : Int)))
        r.checker v = .ok v2 →
      listAppendF fuel name rules data v
        = (data ++ [listPasskey name data.length v2],
           .ok (b36 data.length))) :=
  ⟨fun _ hc => listAppendF_error fuel name rules data v r _ hw hc,
   fun _ hc => listAppendF_ok fuel name rules data v _ r hw hc⟩

/-- Colour value-set rule used by the C5 witness. -/
def colorRule : Rule :=
  Rule.mk ("Colors") (.vset [.pstr (strCp ("red")), .pstr (strCp ("blue"))])
    .pnone

/-- Colour list rule set used by the C5 witness. -/
def colorRules : RuleSet := [(("_any" : String), colorRule)]

/-- Witness for C5 at a concrete list: with wildcard value set
`('red', 'blue')` and one element already stored, appending `green` is
rejected leaving the one-element list intact, and appending `blue` returns
address `"1"`. -/
theorem C5_append_witness :
    listAppendF 1 ("config/colors") colorRules
        [ConfVal.scalar (.pstr (strCp ("red")))]
        (.scalar (.pstr (strCp ("green"))))
      = ([ConfVal.scalar (.pstr (strCp ("red")))],
         .error (.invalidValue ("Invalid value for config/colors/1: green")))
    ∧ listAppendF 1 ("config/colors") colorRules
        [ConfVal.scalar (.pstr (strCp ("red")))]
        (.scalar (.pstr (strCp ("blue"))))
      = ([ConfVal.scalar (.pstr (strCp ("red"))),
          ConfVal.scalar (.pstr (strCp ("blue")))], .ok ("1")) := by
  constructor
  · exact (C5_append 1 ("config/colors") colorRules
      [ConfVal.scalar (.pstr (strCp ("red")))]
      (.scalar (.pstr (strCp ("green")))) colorRule rfl).1
      ("Invalid value for config/colors/1: green") (by rfl)
  · exact (C5_append 1 ("config/colors") colorRules
      [ConfVal.scalar (.pstr (strCp ("red")))]
      (.scalar (.pstr (strCp ("blue")))) colorRule rfl).2
      (ConfVal.scalar (.pstr (strCp ("blue")))) (by rfl)

/-! ## Claim C10: list `update` -/

theorem listSetLoop_ok (fuel : Nat) (name : String) (rules : RuleSet)
    (r : Rule) (src : List ConfVal) (g : Nat → ConfVal)
    (hw : List.lookup ("_any") rules = some r)
    (hg : ∀ (i : Nat) (v : ConfVal), src[i]? = some v →
      checkValueF fuel name (cpStr (intReprCp (i : Int))) r.checker v
        = .ok (g i)) :
    ∀ k i data, i + k = data.length → data.length ≤ src.length →
      listSetLoop fuel name rules k i data src
        = (data.take i
            ++ (List.range k).map (fun t => listPasskey name (i + t) (g (i + t))),
           .ok ()) := by
  intro k
  induction k with
  | zero =>
    intro i data hk hle
    have hi : i = data.length := by omega
    subst hi
    simp [listSetLoop, List.take_of_length_le]
  | succ k ih =>
    intro i data hk hle
    have hilt : i < data.length := by omega
    have hisrc : i < src.length := by omega
    have hget : src[i]? = some (src[i]) := by
      simp [List.getElem?_eq_getElem hisrc]
    have hc := hg i (src[i]) hget
    have hidx : pyIdx data.length (i : Int) = some i := by
      simp only [pyIdx]
      have h0 : ¬ ((i : Int) < 0) := by omega
      have h1 : (0 : Int) ≤ (i : Int) ∧ (i : Int) < (data.length : Int) := by
        omega
      simp [h0, h1]
    simp only [listSetLoop, hget, listSetItemF, getRuleL, hw, hc, listSetIdx,
      hidx]
    rw [Int.toNat_ofNat]
    have hlen2 : (data.set i (listPasskey name i (g i))).length
        = data.length := by simp
    rw [ih (i + 1) (data.set i (listPasskey name i (g i)))
      (by rw [hlen2]; omega) (by rw [hlen2]; omega)]
    have htake : (data.set i (listPasskey name i (g i))).take (i + 1)
        = data.take i ++ [listPasskey name i (g i)] := by
      rw [List.set_eq_take_append_cons_drop, if_pos hilt]
      rw [List.take_append_eq_append_take]
      have h2 : (data.take i).length = i := by
        simp [List.length_take, Nat.min_eq_left (Nat.le_of_lt hilt)]
      rw [List.take_of_length_le (by omega), h2]
      simp
    rw [htake]
    have hmap : (List.range (k + 1)).map
          (fun t => listPasskey name (i + t) (g (i + t)))
        = listPasskey name i (g i)
          :: (List.range k).map
            (fun t => listPasskey name ((i + 1) + t) (g ((i + 1) + t))) := by
      rw [List.range_succ_eq_map]
      simp only [List.map_cons, Nat.add_zero, List.map_map]
      congr 1
      apply List.map_congr_left
      intro t _
      have ht : i + (t + 1) = (i + 1) + t := by omega
      simp [Function.comp, ht]
    rw [hmap]
    simp

theorem listExtendF_from_drop (fuel : Nat) (name : String) (rules : RuleSet)
    (r : Rule) (src : List ConfVal) (g : Nat → ConfVal)
    (hw : List.lookup ("_any") rules = some r)
    (hg : ∀ (i : Nat) (v : ConfVal), src[i]? = some v →
      checkValueF fuel name (cpStr (intReprCp (i : Int))) r.checker v
        = .ok (g i)) :
    ∀ d j dcur, src.length - j = d → dcur.length = j →
      listExtendF fuel name rules dcur (src.drop j)
        = (dcur
            ++ (List.range d).map (fun t => listPasskey name (j + t) (g (j + t))),
           .ok ()) := by
  intro d
  induction d with
  | zero =>
    intro j dcur hd hj
    have hdrop : src.drop j = [] := by
      apply List.drop_eq_nil_of_le
      omega
    simp [hdrop, listExtendF]
  | succ d ih =>
    intro j dcur hd hj
    have hjsrc : j < src.length := by omega
    have hdrop : src.drop j = src[j] :: src.drop (j + 1) :=
      List.drop_eq_getElem_cons hjsrc
    rw [hdrop]
    have hv : src[j]? = some (src[j]) := by
      simp [List.getElem?_eq_getElem hjsrc]
    have hc := hg j (src[j]) hv
    have happ := listAppendF_ok fuel name rules dcur (src[j]) (g j) r hw
      (by rw [hj]; exact hc)
    simp only [listExtendF, happ]
    rw [ih (j + 1) (dcur ++ [listPasskey name dcur.length (g j)])
      (by omega) (by simp [hj])]
    have hmap : (List.range (d + 1)).map
          (fun t => listPasskey name (j + t) (g (j + t)))
        = listPasskey name j (g j)
          :: (List.range d).map
            (fun t => listPasskey name ((j + 1) + t) (g ((j + 1) + t))) := by
      rw [List.range_succ_eq_map]
      simp only [List.map_cons, Nat.add_zero, List.map_map]
      congr 1
      apply List.map_congr_left
      intro t _
      have ht : j + (t + 1) = (j + 1) + t := by omega
      simp [Function.comp, ht]
    rw [hmap, hj]
    simp

/-- C10: on a list container with a wildcard rule, updating from a source
of length `m ≥ n` (the list's length) whose elements all pass the wildcard
checker replaces the first `n` positions in place with the coerced first
`n` source elements and appends the remaining `m - n` coerced elements in
order; the final length is `m`, and the update never truncates the list. -/
theorem C10_list_update (fuel : Nat) (name : String) (rules : RuleSet)
    (r : Rule) (data src : List ConfVal) (g : Nat → ConfVal)
    (hw : List.lookup ("_any") rules = some r)
    (hlen : data.length ≤ src.length)
    (hg : ∀ (i : Nat) (v : ConfVal), src[i]? = some v →
      checkValueF fuel name (cpStr (intReprCp (i : Int))) r.checker v
        = .ok (g i)) :
    listUpdateF fuel name rules data src
      = ((List.range src.length).map (fun i => listPasskey name i (g i)),
         .ok ())
    ∧ (listUpdateF fuel name rules data src).1.length = src.length
    ∧ data.length ≤ (listUpdateF fuel name rules data src).1.length := by
  have hloop := listSetLoop_ok fuel name rules r src g hw hg data.length 0
    data (by omega) hlen
  have hmain : listUpdateF fuel name rules data src
      = ((List.range src.length).map (fun i => listPasskey name i (g i)),
         .ok ()) := by
    simp only [listUpdateF, hloop, List.take_zero, List.nil_append]
    have hlen1 : ((List.range data.length).map
        (fun t => listPasskey name (0 + t) (g (0 + t)))).length
          = data.length := by simp
    rw [listExtendF_from_drop fuel name rules r src g hw hg
      (src.length - data.length) data.length _ rfl hlen1]
    have he1 : (fun t => listPasskey name (0 + t) (g (0 + t)))
        = (fun t => listPasskey name t (g t)) := by
      funext t
      simp
    rw [he1]
    have hsplit : src.length = data.length + (src.length - data.length) := by
      omega
    rw [hsplit, List.range_add, List.map_append, List.map_map]
    have he2 : ((fun i => listPasskey name i (g i)) ∘ (data.length + ·))
        = (fun t => listPasskey name (data.length + t) (g (data.length + t))) := by
      funext t
      simp [Function.comp]
    rw [he2]
    simp [Nat.add_sub_cancel_left]
  refine ⟨hmain, ?_, ?_⟩ <;> rw [hmain] <;> simp [hlen]

/-- Witness for C10: a one-element int list updated from the two-element
source `["7", "8"]` becomes `[7, 8]`. -/
theorem C10_list_update_witness :
    listUpdateF 1 ("config/ints") anyIntRules [ConfVal.scalar (.pint 1)]
        [ConfVal.scalar (.pstr (strCp ("7"))),
         ConfVal.scalar (.pstr (strCp ("8")))]
      = ([ConfVal.scalar (.pint 7), ConfVal.scalar (.pint 8)], .ok ()) := by
  have h := (C10_list_update 1 ("config/ints") anyIntRules
    (Rule.mk ("") .cInt .pnone) [ConfVal.scalar (.pint 1)]
    [ConfVal.scalar (.pstr (strCp ("7"))), ConfVal.scalar (.pstr (strCp ("8")))]
    (fun i => ConfVal.scalar (.pint (7 + (i : Int)))) rfl (by simp)
    (by
      intro i v h
      cases i with
      | zero =>
        simp at h
        subst h
        rfl
      | succ i =>
        cases i with
        | zero =>
          simp at h
          subst h
          rfl
        | succ i => simp at h)).1
  rw [h]
  rfl

/-! ## Claim C4: every stored scalar passed its checker -/

/-- Public mutations of a mapping container: item assignment, attribute
assignment (which delegates to `__setitem__` only for names listed in the
rules, and otherwise stores a plain attribute, leaving the data intact),
and `update`. -/
inductive DictMut where
  | set (k : String) (v : ConfVal)
  | attrSet (k : String) (v : ConfVal)
  | update (src : List (String × ConfVal))

/-- Public mutations of a list container: item assignment, `append`,
`extend` and `update`. -/
inductive ListMut where
  | setIdx (i : Int) (v : ConfVal)
  | append (v : ConfVal)
  | extend (vs : List ConfVal)
  | update (vs : List ConfVal)

/-- Effect of one mapping-container mutation on the stored data. -/
def applyDictMut (fuel : Nat) (name : String) (rules : RuleSet)
    (data : List (String × ConfVal)) :
    DictMut → Except PyErr (List (String × ConfVal))
  | .set k v => dictSetItemF fuel name rules data k v
  | .attrSet k v =>
    if (List.lookup k rules).isSome then dictSetItemF fuel name rules data k v
    else .ok data
  | .update src =>
    match dictUpdateF fuel name rules data src with
    | (d, .ok _) => .ok d
    | (_, .error e) => .error e

/-- Run of a sequence of mapping-container mutations; stops at the first
failure. -/
def runDictMuts (fuel : Nat) (name : String) (rules : RuleSet) :
    List DictMut → List (String × ConfVal) →
    Except PyErr (List (String × ConfVal))
  | [], data => .ok data
  | m :: ms, data =>
    match applyDictMut fuel name rules data m with
    | .ok d => runDictMuts fuel name rules ms d
    | .error e => .error e

/-- Effect of one list-container mutation on the stored data. -/
def applyListMut (fuel : Nat) (name : String) (rules : RuleSet)
    (data : List ConfVal) : ListMut → Except PyErr (List ConfVal)
  | .setIdx i v => listSetItemF fuel name rules data i v
  | .append v =>
    match listAppendF fuel name rules data v with
    | (d, .ok _) => .ok d
    | (_, .error e) => .error e
  | .extend vs =>
    match listExtendF fuel name rules data vs with
    | (d, .ok _) => .ok d
    | (_, .error e) => .error e
  | .update vs =>
    match listUpdateF fuel name rules data vs with
    | (d, .ok _) => .ok d
    | (_, .error e) => .error e

/-- Run of a sequence of list-container mutations; stops at the first
failure. -/
def runListMuts (fuel : Nat) (name : String) (rules : RuleSet) :
    List ListMut → List ConfVal → Except PyErr (List ConfVal)
  | [], data => .ok data
  | m :: ms, data =>
    match applyListMut fuel name rules data m with
    | .ok d => runListMuts fuel name rules ms d
    | .error e => .error e

/-- Invariant of a mapping container: every stored scalar is the output of
its governing rule's checker on some input. -/
def dictInv (fuel : Nat) (name : String) (rules : RuleSet)
    (data : List (String × ConfVal)) : Prop :=
  ∀ k p, List.lookup k data = some (ConfVal.scalar p) →
    ∃ r input, getRuleD name rules k = .ok r
      ∧ checkValueF fuel name k r.checker input = .ok (ConfVal.scalar p)

/-- Invariant of a list container: every stored scalar is the output of
the governing (wildcard) rule's checker on some input. -/
def listInv (fuel : Nat) (name : String) (rules : RuleSet)
    (data : List ConfVal) : Prop :=
  ∀ (i : Nat) p, data[i]? = some (ConfVal.scalar p) →
    ∃ r input key, getRuleL name rules (i : Int) = .ok r
      ∧ checkValueF fuel name key r.checker input = .ok (ConfVal.scalar p)

theorem dictPasskey_scalar (name k : String) (v : ConfVal) (p : PyVal)
    (h : dictPasskey name k v = ConfVal.scalar p) : v = ConfVal.scalar p := by
  cases v with
  | scalar q => simpa [dictPasskey] using h
  | dict a b c d =>
    simp only [dictPasskey] at h
    split at h <;> simp at h
  | list a b c d =>
    simp only [dictPasskey] at h
    split at h <;> simp at h

theorem listPasskey_scalar (name : String) (k : Nat) (v : ConfVal) (p : PyVal)
    (h : listPasskey name k v = ConfVal.scalar p) : v = ConfVal.scalar p := by
  cases v with
  | scalar q => simpa [listPasskey] using h
  | dict a b c d => simp [listPasskey] at h
  | list a b c d => simp [listPasskey] at h

theorem getRuleL_ok_inv (name : String) (rules : RuleSet) (i : Int)
    (r : Rule) (h : getRuleL name rules i = .ok r) :
    List.lookup ("_any") rules = some r := by
  unfold getRuleL at h
  split at h
  next r0 heq =>
    injection h with h1
    subst h1
    exact heq
  next heq => cases h

theorem pyIdx_some_lt (len : Nat) (i : Int) (j : Nat)
    (h : pyIdx len i = some j) : j < len := by
  simp only [pyIdx] at h
  by_cases hi : i < 0
  · rw [if_pos hi] at h
    split at h
    next hcond =>
      injection h with h1
      omega
    next => cases h
  · rw [if_neg hi] at h
    split at h
    next hcond =>
      injection h with h1
      omega
    next => cases h

theorem dictSetItemF_ok_inversion (fuel : Nat) (name : String)
    (rules : RuleSet) (data d2 : List (String × ConfVal)) (k : String)
    (v : ConfVal) (h : dictSetItemF fuel name rules data k v = .ok d2) :
    ∃ r v2, getRuleD name rules k = .ok r
      ∧ checkValueF fuel name k r.checker v = .ok v2
      ∧ d2 = assocSet data k (dictPasskey name k v2) := by
  unfold dictSetItemF at h
  split at h
  next e heq => cases h
  next r heq =>
    split at h
    next e2 heq2 => cases h
    next v2 heq2 =>
      injection h with h1
      exact ⟨r, v2, heq, heq2, h1.symm⟩

theorem listSetItemF_ok_inversion (fuel : Nat) (name : String)
    (rules : RuleSet) (data d2 : List ConfVal) (i : Int) (v : ConfVal)
    (h : listSetItemF fuel name rules data i v = .ok d2) :
    ∃ r v2 j, List.lookup ("_any") rules = some r
      ∧ checkValueF fuel name (cpStr (intReprCp i)) r.checker v = .ok v2
      ∧ pyIdx data.length i = some j
      ∧ d2 = data.set j (listPasskey name i.toNat v2) := by
  unfold listSetItemF at h
  split at h
  next e heq => cases h
  next r heq =>
    split at h
    next e2 heq2 => cases h
    next v2 heq2 =>
      unfold listSetIdx at h
      split at h
      next j heq3 =>
        injection h with h1
        exact ⟨r, v2, j, getRuleL_ok_inv name rules i r heq, heq2, heq3,
          h1.symm⟩
      next heq3 => cases h

theorem getRuleL_any (name : String) (rules : RuleSet) (r : Rule)
    (hw : List.lookup ("_any") rules = some r) (i : Int) :
    getRuleL name rules i = .ok r := by
  simp [getRuleL, hw]

theorem dictInv_setItem (fuel : Nat) (name : String) (rules : RuleSet)
    (data d2 : List (String × ConfVal)) (k : String) (v : ConfVal)
    (hinv : dictInv fuel name rules data)
    (h : dictSetItemF fuel name rules data k v = .ok d2) :
    dictInv fuel name rules d2 := by
  obtain ⟨r, v2, hr, hc, hd⟩ := dictSetItemF_ok_inversion _ _ _ _ _ _ _ h
  subst hd
  intro k2 p hl
  rw [assocSet_lookup] at hl
  by_cases hk : k2 = k
  · rw [if_pos hk] at hl
    subst hk
    have hv2 : v2 = ConfVal.scalar p :=
      dictPasskey_scalar name k2 v2 p (by injection hl)
    subst hv2
    exact ⟨r, v, hr, hc⟩
  · rw [if_neg hk] at hl
    exact hinv k2 p hl

theorem listInv_setItem (fuel : Nat) (name : String) (rules : RuleSet)
    (data d2 : List ConfVal) (i : Int) (v : ConfVal)
    (hinv : listInv fuel name rules data)
    (h : listSetItemF fuel name rules data i v = .ok d2) :
    listInv fuel name rules d2 := by
  obtain ⟨r, v2, j, hw, hc, hj, hd⟩ := listSetItemF_ok_inversion _ _ _ _ _ _ _ h
  subst hd
  intro i2 p hl
  by_cases hij : j = i2
  · subst hij
    have hjlen : j < data.length := pyIdx_some_lt data.length i j hj
    rw [List.getElem?_set_self hjlen] at hl
    have hv2 : v2 = ConfVal.scalar p :=
      listPasskey_scalar name i.toNat v2 p (by injection hl)
    subst hv2
    exact ⟨r, v, cpStr (intReprCp i), getRuleL_any name rules r hw _, hc⟩
  · rw [List.getElem?_set_ne hij] at hl
    exact hinv i2 p hl

theorem listInv_append (fuel : Nat) (name : String) (rules : RuleSet)
    (data d2 : List ConfVal) (v : ConfVal) (s : String)
    (hinv : listInv fuel name rules data)
    (h : listAppendF fuel name rules data v = (d2, .ok s)) :
    listInv fuel name rules d2 := by
  revert h
  simp only [listAppendF]
  have hlen : (data ++ [ConfVal.scalar PyVal.pnone]).length - 1
      = data.length := by simp
  rw [hlen]
  cases hset : listSetItemF fuel name rules (data ++ [ConfVal.scalar .pnone])
      ((data.length : Nat) : Int) v with
  | error e =>
    intro h
    simp at h
  | ok d3 =>
    intro h
    injection h with h1 h2
    subst h1
    obtain ⟨r, v2, j, hw, hc, hj, hd⟩ :=
      listSetItemF_ok_inversion _ _ _ _ _ _ _ hset
    have hpy : pyIdx (data ++ [ConfVal.scalar PyVal.pnone]).length
        ((data.length : Nat) : Int) = some data.length := by
      simp only [pyIdx, List.length_append, List.length_cons,
        List.length_nil]
      rw [if_neg (by omega : ¬ ((data.length : Int) < 0))]
      rw [if_pos (by constructor <;> omega)]
      simp
    rw [hpy] at hj
    injection hj with hj1
    subst hj1
    have hd3 : d3 = data ++ [listPasskey name data.length v2] := by
      rw [hd, Int.toNat_ofNat,
        List.set_append_right _ _ (Nat.le_refl data.length)]
      simp
    subst hd3
    intro i2 p hl
    rcases Nat.lt_trichotomy i2 data.length with hlt | heq | hgt
    · rw [List.getElem?_append_left hlt] at hl
      exact hinv i2 p hl
    · subst heq
      rw [List.getElem?_append_right (Nat.le_refl _)] at hl
      simp only [Nat.sub_self, List.getElem?_cons_zero] at hl
      have hv2 : v2 = ConfVal.scalar p :=
        listPasskey_scalar name data.length v2 p (by injection hl)
      subst hv2
      exact ⟨r, v, cpStr (intReprCp (data.length : Int)),
        getRuleL_any name rules r hw _,
        checkValueF_ok_irrel fuel name _ name _ _ _ _ hc⟩
    · have hnone : (data ++ [listPasskey name data.length v2])[i2]? = none := by
        apply List.getElem?_eq_none
        simp
        omega
      rw [hnone] at hl
      cases hl

theorem dictInv_update (fuel : Nat) (name : String) (rules : RuleSet) :
    ∀ (src : List (String × ConfVal)) data d2,
      dictInv fuel name rules data →
      dictUpdateF fuel name rules data src = (d2, .ok ()) →
      dictInv fuel name rules d2 := by
  intro src
  induction src with
  | nil =>
    intro data d2 hinv h
    simp only [dictUpdateF] at h
    injection h with h1 h2
    subst h1
    exact hinv
  | cons kv rest ih =>
    intro data d2 hinv h
    obtain ⟨k, v⟩ := kv
    simp only [dictUpdateF] at h
    cases hset : dictSetItemF fuel name rules data k v with
    | ok d =>
      rw [hset] at h
      exact ih d d2 (dictInv_setItem _ _ _ _ _ _ _ hinv hset) h
    | error e =>
      rw [hset] at h
      simp at h

theorem listInv_extend (fuel : Nat) (name : String) (rules : RuleSet) :
    ∀ (vs : List ConfVal) data d2,
      listInv fuel name rules data →
      listExtendF fuel name rules data vs = (d2, .ok ()) →
      listInv fuel name rules d2 := by
  intro vs
  induction vs with
  | nil =>
    intro data d2 hinv h
    simp only [listExtendF] at h
    injection h with h1 h2
    subst h1
    exact hinv
  | cons v rest ih =>
    intro data d2 hinv h
    simp only [listExtendF] at h
    rcases happ : listAppendF fuel name rules data v with ⟨d, res⟩
    rw [happ] at h
    cases res with
    | ok s =>
      exact ih d d2 (listInv_append _ _ _ _ _ _ _ hinv happ) h
    | error e => simp at h

theorem listInv_setLoop (fuel : Nat) (name : String) (rules : RuleSet)
    (src : List ConfVal) :
    ∀ (k : Nat) (i : Nat) data d2,
      listInv fuel name rules data →
      listSetLoop fuel name rules k i data src = (d2, .ok ()) →
      listInv fuel name rules d2 := by
  intro k
  induction k with
  | zero =>
    intro i data d2 hinv h
    simp only [listSetLoop] at h
    injection h with h1 h2
    subst h1
    exact hinv
  | succ k ih =>
    intro i data d2 hinv h
    simp only [listSetLoop] at h
    cases hv : src[i]? with
    | none =>
      rw [hv] at h
      simp at h
    | some v =>
      simp only [hv] at h
      cases hset : listSetItemF fuel name rules data (i : Int) v with
      | ok d =>
        rw [hset] at h
        exact ih (i + 1) d d2 (listInv_setItem _ _ _ _ _ _ _ hinv hset) h
      | error e =>
        rw [hset] at h
        simp at h

theorem listInv_update (fuel : Nat) (name : String) (rules : RuleSet)
    (data d2 src : List ConfVal)
    (hinv : listInv fuel name rules data)
    (h : listUpdateF fuel name rules data src = (d2, .ok ())) :
    listInv fuel name rules d2 := by
  unfold listUpdateF at h
  rcases hloop : listSetLoop fuel name rules data.length 0 data src
    with ⟨d1, res1⟩
  rw [hloop] at h
  cases res1 with
  | ok u =>
    cases u
    exact listInv_extend fuel name rules _ d1 d2
      (listInv_setLoop fuel name rules src _ _ _ _ hinv hloop) h
  | error e => simp at h

/-- C4: starting from a state whose stored scalars all passed their
checkers (for example, the empty data of a freshly constructed container),
every sequence of successful public mutations — item or attribute
assignment and `update` on a mapping container; item assignment, `append`,
`extend` and `update` on a list container — leaves only values accepted by
their governing rule's checker in the store: each stored scalar is the
checker's output for some given input. -/
theorem C4_checked_invariant (fuel : Nat) (name : String) :
    (∀ (rules : RuleSet) (data data2 : List (String × ConfVal))
        (muts : List DictMut),
      dictInv fuel name rules data →
      runDictMuts fuel name rules muts data = .ok data2 →
      dictInv fuel name rules data2)
    ∧ (∀ (rules : RuleSet) (data data2 : List ConfVal)
        (muts : List ListMut),
      listInv fuel name rules data →
      runListMuts fuel name rules muts data = .ok data2 →
      listInv fuel name rules data2) := by
  constructor
  · intro rules data data2 muts
    induction muts generalizing data with
    | nil =>
      intro hinv h
      simp only [runDictMuts] at h
      injection h with h1
      subst h1
      exact hinv
    | cons m ms ih =>
      intro hinv h
      simp only [runDictMuts] at h
      cases hap : applyDictMut fuel name rules data m with
      | error e =>
        rw [hap] at h
        cases h
      | ok d =>
        rw [hap] at h
        refine ih d ?_ h
        cases m with
        | set k v => exact dictInv_setItem _ _ _ _ _ _ _ hinv hap
        | attrSet k v =>
          revert hap
          simp only [applyDictMut]
          split
          · intro hap
            exact dictInv_setItem _ _ _ _ _ _ _ hinv hap
          · intro hap
            injection hap with h1
            subst h1
            exact hinv
        | update src =>
          revert hap
          simp only [applyDictMut]
          rcases hud : dictUpdateF fuel name rules data src with ⟨du, res⟩
          cases res with
          | ok u =>
            cases u
            intro hap
            injection hap with h1
            subst h1
            exact dictInv_update fuel name rules src data du hinv hud
          | error e =>
            intro hap
            cases hap
  · intro rules data data2 muts
    induction muts generalizing data with
    | nil =>
      intro hinv h
      simp only [runListMuts] at h
      injection h with h1
      subst h1
      exact hinv
    | cons m ms ih =>
      intro hinv h
      simp only [runListMuts] at h
      cases hap : applyListMut fuel name rules data m with
      | error e =>
        rw [hap] at h
        cases h
      | ok d =>
        rw [hap] at h
        refine ih d ?_ h
        cases m with
        | setIdx i v => exact listInv_setItem _ _ _ _ _ _ _ hinv hap
        | append v =>
          revert hap
          simp only [applyListMut]
          rcases ha : listAppendF fuel name rules data v with ⟨da, res⟩
          cases res with
          | ok s =>
            intro hap
            injection hap with h1
            subst h1
            exact listInv_append _ _ _ _ _ _ _ hinv ha
          | error e =>
            intro hap
            cases hap
        | extend vs =>
          revert hap
          simp only [applyListMut]
          rcases ha : listExtendF fuel name rules data vs with ⟨da, res⟩
          cases res with
          | ok u =>
            cases u
            intro hap
            injection hap with h1
            subst h1
            exact listInv_extend _ _ _ _ _ _ hinv ha
          | error e =>
            intro hap
            cases hap
        | update vs =>
          revert hap
          simp only [applyListMut]
          rcases ha : listUpdateF fuel name rules data vs with ⟨da, res⟩
          cases res with
          | ok u =>
            cases u
            intro hap
            injection hap with h1
            subst h1
            exact listInv_update _ _ _ _ _ _ hinv ha
          | error e =>
            intro hap
            cases hap

/-- Witness for C4: running concrete mutation sequences from empty
containers yields states satisfying the invariant — the dict run stores
the coerced integer 42 under `count`, the list run appends 7 and extends
with 8. -/
theorem C4_checked_invariant_witness :
    dictInv 1 ("config") countRules
      [(("count" : String), ConfVal.scalar (.pint 42))]
    ∧ listInv 1 ("config") anyIntRules
      [ConfVal.scalar (.pint 7), ConfVal.scalar (.pint 8)] := by
  constructor
  · exact (C4_checked_invariant 1 ("config")).1 countRules []
      [(("count" : String), ConfVal.scalar (.pint 42))]
      [DictMut.set ("count") (.scalar (.pstr (strCp ("42"))))]
      (by intro k p hl; simp at hl) rfl
  · exact (C4_checked_invariant 1 ("config")).2 anyIntRules []
      [ConfVal.scalar (.pint 7), ConfVal.scalar (.pint 8)]
      [ListMut.append (.scalar (.pstr (strCp ("7")))),
       ListMut.extend [.scalar (.pstr (strCp ("8")))]]
      (by intro i p hl; simp at hl) rfl

/-! ## The Python object model for attribute access (claims C7 and C8) -/

/-- A live `ConfigDict` object: the container state plus the plain
instance attributes that `pcls.__setattr__` stores outside the rule
engine.  Internal attributes such as `_name` and `rules` are modelled by
the structure fields themselves; `attrs` holds only the user-visible
names, which `add_rule` guarantees never collide with rule keys
(`assert(not hasattr(self, key))`). -/
structure DictObj where
  name : String
  comment : Option String
  rules : RuleSet
  data : List (String × ConfVal)
  attrs : List (String × ConfVal)

/-- Python attribute read on a `ConfigDict` object: a normal instance
attribute wins (then `__getattr__` is never called); otherwise
`RC.__getattr__` delegates to `self[attr]` whenever the name is in the
rules or a wildcard exists, and otherwise re-raises the
`AttributeError` of `__getattribute__`. -/
def objGetAttr (o : DictObj) (a : String) : Except PyErr ConfVal :=
  match List.lookup a o.attrs with
  | some v => .ok v
  | none =>
    if (List.lookup a o.rules).isSome
        ∨ (List.lookup ("_any") o.rules).isSome
    then dictGetItem o.rules o.data a
    else .error (.attributeError a)

/-- `ConfigDict.__delitem__`: unconditionally raises, but the message
interpolates `self.name` — an attribute that does not exist — so the
raised exception is the `AttributeError` from that lookup unless the name
`name` happens to be covered by the rules (then the intended `UsageError`
escapes, rendering whatever `self['name']` returned).  Deletion never
modifies the container. -/
def objDelItem (o : DictObj) : PyErr :=
  match objGetAttr o ("name") with
  | .ok v => .usageError ("Deleting keys from " ++ renderVal v
      ++ " is not allowed")
  | .error e => e

/-! ## Claim C7: deletion always fails -/

/-- C7: deletion from a mapping container never succeeds and never
changes the container (by construction `objDelItem` only returns an
exception), but the exception is not always the intended domain error: on
a container whose rules have no `name` key and no wildcard the message
formatting `'%s' % self.name` itself raises `AttributeError`, which
escapes instead of the `UsageError`; with a wildcard, the `UsageError`
escapes with `None` interpolated for the name. -/
theorem C7_delete_always_fails :
    objDelItem ⟨("config"), none, countRules, [], []⟩
      = .attributeError ("name")
    ∧ objDelItem ⟨("config"), none, anyIntRules, [], []⟩
      = .usageError ("Deleting keys from None is not allowed") :=
  ⟨rfl, rfl⟩

/-! ## Claim C8: attribute access versus item access -/

/-- Rules of a container node. -/
def nodeRules : ConfVal → RuleSet
  | .scalar _ => []
  | .dict _ _ rs _ => rs
  | .list _ _ rs _ => rs

mutual

/-- Computable size of a configuration tree, used as a sufficient fuel
bound for the depth-recursive serializer. -/
def confSize : ConfVal → Nat
  | .scalar _ => 1
  | .dict _ _ _ data => 1 + confSizeD data
  | .list _ _ _ data => 1 + confSizeL data

/-- Size of dict data. -/
def confSizeD : List (String × ConfVal) → Nat
  | [] => 0
  | (_, v) :: r => confSize v + confSizeD r

/-- Size of list data. -/
def confSizeL : List ConfVal → Nat
  | [] => 0
  | v :: r => confSize v + confSizeL r

end

/-- One step of a resolved section path. -/
inductive Step where
  | key (k : String)
  | idx (i : Nat)
deriving DecidableEq, Repr

/-- The node of the tree reached by a step path. -/
def getNode : ConfVal → List Step → Option ConfVal
  | c, [] => some c
  | .dict _ _ _ data, .key k :: rest =>
    (match List.lookup k data with
    | some ch => getNode ch rest
    | none => none)
  | .list _ _ _ data, .idx i :: rest =>
    (match data[i]? with
    | some ch => getNode ch rest
    | none => none)
  | _, _ => none

/-- Rebuild the tree after applying a fallible transformation to the node
at a step path. -/
def modifyNode (f : ConfVal → Except PyErr ConfVal) :
    ConfVal → List Step → Except PyErr ConfVal
  | c, [] => f c
  | .dict n cm rs data, .key k :: rest =>
    (match List.lookup k data with
    | some ch =>
      (modifyNode f ch rest).map (fun ch2 => ConfVal.dict n cm rs
        (assocSet data k ch2))
    | none => .error (.keyError k))
  | .list n cm rs data, .idx i :: rest =>
    (match data[i]? with
    | some ch =>
      (modifyNode f ch rest).map (fun ch2 => ConfVal.list n cm rs
        (data.set i ch2))
    | none => .error (.indexError ("path index out of range")))
  | .scalar _, _ :: _ => .error (.typeError ("path through a scalar"))
  | .dict _ _ _ _, .idx _ :: _ => .error (.typeError ("bad path step"))
  | .list _ _ _ _, .key _ :: _ => .error (.typeError ("bad path step"))

/-- The loader's working reference `cfg`: either a real node of the tree,
or — after the dict-wildcard branch `cfg = cfg[part] = {}`, whose chained
assignment rebinds `cfg` to a fresh plain dict before subscripting it —
a detached self-referential plain dict that is no longer part of the
tree. -/
inductive Focus where
  | real (path : List Step)
  | detached (lastPart : String)
deriving DecidableEq, Repr

/-- Python `part in cfg` on a container: key membership for a dict, but
VALUE membership for a list. -/
def nodeContains (c : ConfVal) (part : String) : Bool :=
  match c with
  | .scalar _ => false
  | .dict _ _ _ data => (List.lookup part data).isSome
  | .list _ _ _ data =>
    data.any (fun e =>
      match e with
      | .scalar p => p == PyVal.pstr (strCp part)
      | _ => false)

/-- `cfg = cfg[part]` on a container that answered `part in cfg`: a dict
descends by key; a list first converts the part through `__fixkey__`
(base-36), then indexes — which can raise `IndexError` or `TypeError`
because membership was tested on values, not addresses. -/
def descendStep (c : ConfVal) (part : String) : Except PyErr Step :=
  match c with
  | .dict _ _ _ _ => .ok (.key part)
  | .list _ _ _ data =>
    (match parse36 part with
    | some i =>
      match pyIdx data.length i with
      | some j => .ok (.idx j)
      | none => .error (.indexError ("list index out of range"))
    | none => .error (.typeError ("list indices must be integers")))
  | .scalar _ => .error (.typeError ("unsubscriptable value"))

/-- One part of the section-path walk of `parse_config`: descend through
an existing key; else materialize through a wildcard (appending an empty
dict to a list and descending into `cfg[part]`, or rebinding to a
detached plain dict for a mapping); else log the `section does not exist`
warning, mark the parse failed and stay in place. -/
def walkPart (fuel : Nat) (source secName : String) (tree : ConfVal)
    (focus : Focus) (okay : Bool) (warns : List String) (part : String) :
    Except PyErr (ConfVal × Focus × Bool × List String) :=
  match focus with
  | .detached lp =>
    if part = lp then .ok (tree, .detached lp, okay, warns)
    else .error (.attributeError ("rules"))
  | .real p =>
    match getNode tree p with
    | none => .error (.typeError ("focus lost"))
    | some (.scalar _) => .error (.typeError ("argument not iterable"))
    | some node =>
      if nodeContains node part then
        (descendStep node part).map
          (fun st => (tree, Focus.real (p ++ [st]), okay, warns))
      else if (List.lookup ("_any") (nodeRules node)).isSome then
        match node with
        | .list n cm rs data =>
          (match listAppendF fuel n rs data (ConfVal.dict ("") none [] []) with
          | (d2, .ok _) =>
            let newNode := ConfVal.list n cm rs d2
            (match modifyNode (fun _ => .ok newNode) tree p with
            | .ok tree2 =>
              (descendStep newNode part).map
                (fun st => (tree2, Focus.real (p ++ [st]), okay, warns))
            | .error e => .error e)
          | (_, .error e) => .error e)
        | .dict _ _ _ _ => .ok (tree, .detached part, okay, warns)
        | .scalar _ => .error (.typeError ("unreachable"))
      else
        .ok (tree, .real p, false,
          warns ++ ["Invalid (" ++ source ++ "): section " ++ secName
            ++ " does not exist"])

/-- The whole section-path walk. -/
def walkParts (fuel : Nat) (source secName : String) :
    ConfVal → Focus → Bool → List String → List String →
    Except PyErr (ConfVal × Focus × Bool × List String)
  | tree, focus, okay, warns, [] => .ok (tree, focus, okay, warns)
  | tree, focus, okay, warns, part :: rest =>
    match walkPart fuel source secName tree focus okay warns part with
    | .ok (t2, f2, o2, w2) => walkParts fuel source secName t2 f2 o2 w2 rest
    | .error e => .error e

/-- `cfg[var] = val` at a resolved node, for a parser-supplied string
value.  On a list the variable goes through `__fixkey__`; an address that
stays a string reaches the rule checks and then crashes in the raw
`list.__setitem__`. -/
def setAtNode (fuel : Nat) (node : ConfVal) (var : String)
    (val : List Nat) : Except PyErr ConfVal :=
  match node with
  | .dict n cm rs data =>
    (dictSetItemF fuel n rs data var (.scalar (.pstr val))).map
      (fun d => ConfVal.dict n cm rs d)
  | .list n cm rs data =>
    (match parse36 var with
    | some i =>
      (listSetItemF fuel n rs data i (.scalar (.pstr val))).map
        (fun d => ConfVal.list n cm rs d)
    | none =>
      match getRuleD n rs var with
      | .error e => .error e
      | .ok r =>
        match checkValueF fuel n var r.checker (.scalar (.pstr val)) with
        | .error e => .error e
        | .ok _ => .error (.typeError ("list indices must be integers")))
  | .scalar _ => .error (.typeError ("unsubscriptable value"))

/-- The item loop of `parse_config` over one resolved section: each
assignment failure of the `ValueError`/`KeyError` family is logged as the
`variable` warning and marks the parse failed; anything else escapes. -/
def applyItems (fuel : Nat) (source secName : String) :
    ConfVal → List Step → Bool → List String → List (String × List Nat) →
    Except PyErr (ConfVal × Bool × List String)
  | tree, _, okay, warns, [] => .ok (tree, okay, warns)
  | tree, p, okay, warns, (var, val) :: rest =>
    match modifyNode (fun node => setAtNode fuel node var val) tree p with
    | .ok tree2 => applyItems fuel source secName tree2 p okay warns rest
    | .error e =>
      if e.isValueOrKeyError then
        applyItems fuel source secName tree p false
          (warns ++ ["Invalid (" ++ source ++ "): section " ++ secName
            ++ ", variable " ++ var]) rest
      else .error e

/-- Split a character list on a separator, keeping empty groups exactly
as Python `str.split(sep)` does. -/
def splitOnChar (c : Char) : List Char → List (List Char)
  | [] => [[]]
  | x :: r =>
    match splitOnChar c r with
    | [] => []
    | g :: gs => if x = c then [] :: g :: gs else (x :: g) :: gs

/-- The section path of `parse_config`:
`section.split(':')[0].split('/')[1:]`. -/
def sectionPath (s : String) : List String :=
  let firstPart := (splitOnChar (Char.ofNat 58) s.toList).headD []
  (((splitOnChar (Char.ofNat 47) firstPart)).map
    (fun l => String.mk l)).drop 1

/-- One section of `parse_config`: split the section name on `:` and `/`,
walk the path, then apply the items — but only when the parse is still
globally `okay` (`for var, val in okay and parser.items(section) or []`),
and silently into the void when the walk ended on a detached dict. -/
def parseSectionF (fuel : Nat) (source : String) (tree : ConfVal)
    (okay : Bool) (warns : List String)
    (sec : String × List (String × List Nat)) :
    Except PyErr (ConfVal × Bool × List String) :=
  let cfgpath := sectionPath sec.1
  match walkParts fuel source sec.1 tree (.real []) okay warns cfgpath with
  | .error e => .error e
  | .ok (tree2, focus, okay2, warns2) =>
    if okay2 then
      match focus with
      | .detached _ => .ok (tree2, okay2, warns2)
      | .real p => applyItems fuel source sec.1 tree2 p okay2 warns2 sec.2
    else .ok (tree2, okay2, warns2)

/-- The section loop of `parse_config`. -/
def parseConfigF (fuel : Nat) (source : String) :
    ConfVal → Bool → List String →
    List (String × List (String × List Nat)) →
    Except PyErr (ConfVal × Bool × List String)
  | tree, okay, warns, [] => .ok (tree, okay, warns)
  | tree, okay, warns, sec :: rest =>
    match parseSectionF fuel source tree okay warns sec with
    | .ok (t2, o2, w2) => parseConfigF fuel source t2 o2 w2 rest
    | .error e => .error e

/-- `ConfigManager.parse_config(session, data)` with the default
`internal` source, on already-INI-parsed sections: returns the updated
tree, the overall boolean, and the warnings logged to the session UI. -/
def parseConfig (fuel : Nat) (tree : ConfVal)
    (secs : List (String × List (String × List Nat))) :
    Except PyErr (ConfVal × Bool × List String) :=
  parseConfigF fuel ("internal") tree true [] secs

/-! ## Claim C2: one valid and one unresolvable section -/

/-- Rules of the resolvable child used in the C2 scenario. -/
def c2SubRules : RuleSet := [(("x" : String), Rule.mk ("") .cInt (.pint 0))]

/-- A root tree with one nested child `sub` (as `add_rule` builds it: the
parent rule's checker set to `False`, the child stored in the data). -/
def c2Root : ConfVal :=
  ConfVal.dict ("config") none
    [(("sub" : String), Rule.mk ("") .cfalse .pnone)]
    [(("sub" : String), ConfVal.dict ("config/sub") none c2SubRules [])]

/-- The same tree after the valid section has been applied. -/
def c2Applied : ConfVal :=
  ConfVal.dict ("config") none
    [(("sub" : String), Rule.mk ("") .cfalse .pnone)]
    [(("sub" : String), ConfVal.dict ("config/sub") none c2SubRules
      [(("x" : String), ConfVal.scalar (.pint 42))])]

/-- The valid section: resolves to `config/sub`, sets `x = 42`. -/
def c2Good : String × List (String × List Nat) :=
  (("config/sub"), [(("x" : String), strCp ("42"))])

/-- The unresolvable section: no `bogus` key and no wildcard at the root. -/
def c2Bad : String × List (String × List Nat) :=
  (("config/bogus"), [(("blabla" : String), strCp ("bla"))])

/-- C2 counterexample: with the unresolvable section first, `parse_config`
still returns `False` with exactly one warning, but the valid section's
pair `x = 42` is NOT applied — the tree comes back unchanged (compare the
valid-first order, where it is applied).  The claimed order-independence
fails because the single `okay` flag, once cleared by the bad section,
empties the item list `okay and parser.items(section) or []` of every
later section. -/
theorem C2_counterexample :
    parseConfig 3 c2Root [c2Bad, c2Good]
      = .ok (c2Root, false,
          ["Invalid (internal): section config/bogus does not exist"])
    ∧ parseConfig 3 c2Root [c2Good, c2Bad]
      = .ok (c2Applied, false,
          ["Invalid (internal): section config/bogus does not exist"]) :=
  ⟨rfl, rfl⟩

/-- C2 (amended): for a text with one valid section (its path resolves by
descent and all its pairs apply cleanly) and one unresolvable section
(resolution fails with the single `does not exist` warning), the loader
returns overall `False` and emits exactly that one warning in either
order; but the valid section's data is applied only when the valid
section precedes the unresolvable one — with the unresolvable section
first, the cleared `okay` flag makes the loader skip the valid section's
items, leaving the tree unchanged. -/
theorem C2_loader_amended (fuel : Nat) (tree tree2 : ConfVal)
    (gname bname : String) (gitems bitems : List (String × List Nat))
    (pg : List Step) (wmsg : String)
    (hgwalk : walkParts fuel ("internal") gname tree (.real []) true []
      (sectionPath gname) = .ok (tree, .real pg, true, []))
    (hgwalkSkip : walkParts fuel ("internal") gname tree (.real []) false
      [wmsg] (sectionPath gname) = .ok (tree, .real pg, false, [wmsg]))
    (hgitems : applyItems fuel ("internal") gname tree pg true [] gitems
      = .ok (tree2, true, []))
    (hbwalk1 : walkParts fuel ("internal") bname tree (.real []) true []
      (sectionPath bname) = .ok (tree, .real [], false, [wmsg]))
    (hbwalk2 : walkParts fuel ("internal") bname tree2 (.real []) true []
      (sectionPath bname) = .ok (tree2, .real [], false, [wmsg])) :
    parseConfig fuel tree [(gname, gitems), (bname, bitems)]
      = .ok (tree2, false, [wmsg])
    ∧ parseConfig fuel tree [(bname, bitems), (gname, gitems)]
      = .ok (tree, false, [wmsg]) := by
  constructor
  · simp only [parseConfig, parseConfigF, parseSectionF, hgwalk]
    simp only [if_true, hgitems]
    simp only [hbwalk2]
    simp
  · simp only [parseConfig, parseConfigF, parseSectionF, hbwalk1]
    simp only [Bool.false_eq_true, if_false]
    simp only [hgwalkSkip]
    simp

/-- Witness for C2 (amended) at the concrete two-section scenario. -/
theorem C2_loader_amended_witness :
    parseConfig 3 c2Root [c2Good, c2Bad]
      = .ok (c2Applied, false,
          ["Invalid (internal): section config/bogus does not exist"])
    ∧ parseConfig 3 c2Root [c2Bad, c2Good]
      = .ok (c2Root, false,
          ["Invalid (internal): section config/bogus does not exist"]) :=
  C2_loader_amended 3 c2Root c2Applied ("config/sub") ("config/bogus")
    [(("x" : String), strCp ("42"))] [(("blabla" : String), strCp ("bla"))]
    [Step.key ("sub")]
    ("Invalid (internal): section config/bogus does not exist")
    rfl rfl rfl rfl rfl

/-! ## Codec round-trip lemmas -/

end Mailpile
